import Mathlib

/-!
# Verification of `data_cube_utilities`

A shallow embedding, in Lean 4, of the pure computational core of the
`data_cube_utilities` repository (`dc_utilities.py`,
`data_cube_utilities/dc_ndvi_anomaly.py`, `data_access_api.py`), together
with theorems settling the specification claims about it.

Modelling conventions:
* numpy float arrays are modelled as `List ℚ`; float arithmetic is exact
  rational arithmetic.  Division by zero, which produces `NaN`/`inf` in
  numpy, is Lean's `0`-returning rational division; every place where the
  Python code inspects or replaces `NaN` is noted at its definition.
* an `xarray.DataArray` is a flat list of pixel values (shape is its
  length); an `xarray.Dataset` is a list of variables, each a flat list of
  pixel values, aligned, or a list of time slices where the time dimension
  matters.
* Python exceptions (`ValueError` from `range(_, _, 0)`,
  `ZeroDivisionError`, `AssertionError`, `IndexError`) are modelled by
  `Option`/`Except` results: `none`/`.error` means the call raises.
-/

namespace DataCubeUtilities

/-! ## `create_cfmask_clean_mask` (dc_utilities.py)

`np.in1d(cfmask.reshape(-1), [2, 3, 4, 255, no_data], invert=True)`
reshaped back: elementwise membership test, inverted.  The array is
modelled as the flat list of its cfmask values. -/

/-- Embedding of `create_cfmask_clean_mask`: a boolean mask, `true`
exactly where the cfmask value lies in none of `[2, 3, 4, 255, no_data]`. -/
def create_cfmask_clean_mask (cfmask : List ℤ) (no_data : ℤ := -9999) :
    List Bool :=
  cfmask.map (fun v =>
    !(v = 2 ∨ v = 3 ∨ v = 4 ∨ v = 255 ∨ v = no_data : Bool))

/-! ## NDVI (dc_ndvi_anomaly.py)

`NDVI(ds) = (ds.nir - ds.red) / (ds.nir + ds.red)`, elementwise over the
aligned `nir` and `red` bands. -/

/-- Per-pixel value of `NDVI`. -/
def NDVI_pixel (nir red : ℚ) : ℚ := (nir - red) / (nir + red)

/-- Embedding of `NDVI`: elementwise `(nir - red) / (nir + red)` over the
two aligned bands (xarray broadcasting on identically-indexed arrays is
elementwise `zipWith`). -/
def NDVI (nir red : List ℚ) : List ℚ := List.zipWith NDVI_pixel nir red

/-! ## EVI (dc_ndvi_anomaly.py)

`evi = G * (nir - red) / (nir + C1*red - C2*blue + L)`, then values
`< -1` are set to `-1`, values `> 2.5` are set to `2.5`, and with
`normalize=True` the positive values are mapped through
`np.interp(x, (0, 2.5), (0, 1))`, which on `[0, 2.5]` is the linear map
`x * (1 - 0) / (2.5 - 0) = x * 2/5`. -/

/-- Raw per-pixel EVI value before clamping. -/
def EVI_raw (G C1 C2 L nir red blue : ℚ) : ℚ :=
  G * (nir - red) / (nir + C1 * red - C2 * blue + L)

/-- Per-pixel clamping step of `EVI`: first `evi.values[evi.values < -1] = -1`,
then `evi.values[2.5 < evi.values] = 2.5`. -/
def EVI_clamp (v : ℚ) : ℚ :=
  let v1 := if v < -1 then -1 else v
  if 5/2 < v1 then 5/2 else v1

/-- Per-pixel value of `EVI`, with the `normalize` flag: positive clamped
values are rescaled by `np.interp(x, (0, 2.5), (0, 1)) = x * 2/5`. -/
def EVI_pixel (G C1 C2 L : ℚ) (normalize : Bool) (nir red blue : ℚ) : ℚ :=
  let v := EVI_clamp (EVI_raw G C1 C2 L nir red blue)
  if normalize ∧ 0 < v then v * (2/5) else v

/-- Embedding of `EVI` over the three aligned bands. -/
def EVI (nir red blue : List ℚ) (G : ℚ := 5/2) (C1 : ℚ := 6)
    (C2 : ℚ := 15/2) (L : ℚ := 1) (normalize : Bool := true) : List ℚ :=
  List.zipWith (fun n rb => EVI_pixel G C1 C2 L normalize n rb.1 rb.2)
    nir (List.zipWith Prod.mk red blue)

/-! ## `chunks` and `split_task` (dc_utilities.py)

`chunks(l, n)` yields `l[i:i+n]` for `i in range(0, len(l), n)`.
`range(_, _, 0)` raises `ValueError`, modelled by `none`; a negative step
with `0 ≤ len(l)` yields no indices, so the chunk list is empty. -/

/-- The positive-step case of `chunks(l, n)`: successive slices
`l.take n`, then recurse on `l.drop n`.  Only ever used with `0 < n`
(the `n = 0` branch mirrors the fact that the Python generator would not
terminate the recursion; it is unreachable through `chunksOpt`). -/
def chunksF (l : List α) (n : ℕ) : List (List α) :=
  match l, n with
  | [], _ => []
  | _ :: _, 0 => []
  | x :: xs, m + 1 =>
      (x :: xs).take (m + 1) :: chunksF ((x :: xs).drop (m + 1)) (m + 1)
termination_by l.length
decreasing_by
  simp only [List.length_drop, List.length_cons]
  exact Nat.sub_lt (Nat.succ_pos _) (Nat.succ_pos _)

/-- Embedding of `list(chunks(l, n))` for an integer step `n`:
`none` models the `ValueError` raised by `range(0, len(l), 0)`;
a negative step makes `range(0, len(l), n)` empty. -/
def chunksOpt (l : List α) (n : ℤ) : Option (List (List α)) :=
  if n = 0 then none
  else if n < 0 then some []
  else some (chunksF l n.toNat)

/-- Python's `sorted` on a list of (integer-coded) acquisition dates. -/
def pySorted (l : List ℤ) : List ℤ := List.insertionSort (· ≤ ·) l

/-- Embedding of the time-range part of `split_task` (the returned
`time_ranges`; the geographic `lat_ranges`/`lon_ranges` are independent of
the acquisitions and are not needed by any claim):
`acquisitions_sorted = sorted(acquisitions)`; the base list is reversed
when `reverse_time`; with `time_chunks = None` the result is the single
run `[base]`; otherwise `time_chunk_size = math.ceil(len / time_chunks)`
(`none` models `ZeroDivisionError` when `time_chunks = 0`) and the result
is `list(chunks(base, time_chunk_size))`. -/
def split_task_time_ranges (acquisitions : List ℤ) (time_chunks : Option ℤ)
    (reverse_time : Bool) : Option (List (List ℤ)) :=
  let acquisitions_sorted := pySorted acquisitions
  let base := if reverse_time then acquisitions_sorted.reverse
              else acquisitions_sorted
  match time_chunks with
  | none => some [base]
  | some tc =>
      if tc = 0 then none
      else
        let time_chunk_size : ℤ :=
          ⌈(acquisitions_sorted.length : ℚ) / (tc : ℚ)⌉
        chunksOpt base time_chunk_size

/-! ## `perform_timeseries_analysis` / `..._iterative` (dc_utilities.py)

Both operate pixelwise on the single variable's time series: values equal
to `no_data` are zeroed and summed over time (`total_data`), counted as
`0`/`1` and summed over time (`total_clean`), and
`normalized_data = total_data / total_clean`.

NaN convention: `total_clean = 0` forces `total_data = 0` (every slice
was `no_data`, hence zeroed), so the only non-finite quotient the Python
code can produce is `0/0 = NaN`.  The iterative variant replaces NaN by
`0`; rational division already returns `0` for `0/0`, so both the plain
quotient in `perform_timeseries_analysis` (NaN there, compared only where
`total_clean ≠ 0`) and the NaN-zeroed quotient are this same `ℚ`
division. -/

/-- The per-pixel output variables of the timeseries analyses. -/
structure TSOut where
  normalized_data : ℚ
  total_data : ℚ
  total_clean : ℚ
deriving DecidableEq, Repr

/-- `processed_data` zeroes `no_data` values, then sums over time. -/
def totalData (series : List ℚ) (no_data : ℚ) : ℚ :=
  (series.map (fun v => if v = no_data then 0 else v)).sum

/-- `clean_data` maps values to `1` (`0` at `no_data`), then sums over
time: the count of clean acquisitions. -/
def totalClean (series : List ℚ) (no_data : ℚ) : ℚ :=
  (series.map (fun v => if v = no_data then (0 : ℚ) else 1)).sum

/-- Embedding of `perform_timeseries_analysis` at one pixel. -/
def perform_timeseries_analysis (series : List ℚ) (no_data : ℚ := -9999) :
    TSOut :=
  { normalized_data := totalData series no_data / totalClean series no_data
    total_data := totalData series no_data
    total_clean := totalClean series no_data }

/-- Embedding of `perform_timeseries_analysis_iterative` at one pixel:
with no `intermediate_product` it matches the single-shot analysis (with
NaN zeroed); otherwise the chunk sums are added onto the intermediate
totals and `normalized_data` is recomputed from the accumulated totals. -/
def perform_timeseries_analysis_iterative (series : List ℚ)
    (intermediate_product : Option TSOut) (no_data : ℚ := -9999) : TSOut :=
  let processed_data_sum := totalData series no_data
  let clean_data_sum := totalClean series no_data
  match intermediate_product with
  | none =>
      { normalized_data := processed_data_sum / clean_data_sum
        total_data := processed_data_sum
        total_clean := clean_data_sum }
  | some ip =>
      let td := ip.total_data + processed_data_sum
      let tc := ip.total_clean + clean_data_sum
      { normalized_data := td / tc
        total_data := td
        total_clean := tc }

/-- Folding the iterative analysis over successive time chunks, each call
receiving the previous result as `intermediate_product` (starting from
`None`). -/
def iterate_timeseries_chunks (chunkList : List (List ℚ)) (no_data : ℚ) :
    Option TSOut :=
  chunkList.foldl
    (fun acc c => some (perform_timeseries_analysis_iterative c acc no_data))
    none

/-! ## Compositing reducers (dc_utilities.py)

`fill_nodata`, `max_value`, `min_value`, `addition` all share the shape:
with `dataset_intermediate is None` return `dataset.copy(deep=True)`;
otherwise `dataset_out = dataset_intermediate.copy(deep=True)` and each
variable of `dataset_out` is updated in place under a boolean mask.

A `Dataset` is the list of its variables, each the flat list of its pixel
values, aligned across the two arguments.  For `max_value`/`min_value` the
comparison variable `ndvi` sits at index `ndviIdx`; for `addition` the
variables are, in `dict` order of construction,
`[normalized_data, total_data, total_clean]` at indices `0, 1, 2`. -/

abbrev Dataset := List (List ℚ)

/-- One variable of `fill_nodata`:
`out[key].values[out[key].values == -9999] = dataset[key].values[...]` —
keep the intermediate value unless it is `-9999`, else take `dataset`'s. -/
def fill_nodata_var (dv ov : List ℚ) : List ℚ :=
  List.zipWith (fun d o => if o = -9999 then d else o) dv ov

/-- Embedding of `fill_nodata` (values only; `copy(deep=True)` is the
identity on values). -/
def fill_nodata (dataset : Dataset) (dataset_intermediate : Option Dataset) :
    Dataset :=
  match dataset_intermediate with
  | none => dataset
  | some im => List.zipWith fill_nodata_var dataset im

/-- `out[mask] = d[mask]` on one variable: where the mask is true take
`d`'s pixel, else keep `out`'s. -/
def masked_update (ov dv : List ℚ) (mask : List Bool) : List ℚ :=
  List.zipWith (fun o dm => if dm.2 then dm.1 else o) ov
    (List.zipWith Prod.mk dv mask)

/-- `dataset.ndvi.values > dataset_out.ndvi.values`, elementwise. -/
def gt_mask (a b : List ℚ) : List Bool :=
  List.zipWith (fun x y => decide (y < x)) a b

/-- `dataset.ndvi.values < dataset_out.ndvi.values`, elementwise. -/
def lt_mask (a b : List ℚ) : List Bool :=
  List.zipWith (fun x y => decide (x < y)) a b

/-- One loop iteration of `max_value`: the mask is recomputed from the
*current* `dataset_out.ndvi` (so once `key = ndvi` has been processed the
mask changes for later keys, exactly as in the Python loop). -/
def max_value_step (dataset : Dataset) (ndviIdx : ℕ) (out : Dataset)
    (k : ℕ) : Dataset :=
  let mask := gt_mask (dataset.getD ndviIdx []) (out.getD ndviIdx [])
  out.set k (masked_update (out.getD k []) (dataset.getD k []) mask)

/-- Embedding of `max_value` (values only). -/
def max_value (dataset : Dataset) (dataset_intermediate : Option Dataset)
    (ndviIdx : ℕ) : Dataset :=
  match dataset_intermediate with
  | none => dataset
  | some im => (List.range im.length).foldl (max_value_step dataset ndviIdx) im

/-- One loop iteration of `min_value`. -/
def min_value_step (dataset : Dataset) (ndviIdx : ℕ) (out : Dataset)
    (k : ℕ) : Dataset :=
  let mask := lt_mask (dataset.getD ndviIdx []) (out.getD ndviIdx [])
  out.set k (masked_update (out.getD k []) (dataset.getD k []) mask)

/-- Embedding of `min_value` (values only). -/
def min_value (dataset : Dataset) (dataset_intermediate : Option Dataset)
    (ndviIdx : ℕ) : Dataset :=
  match dataset_intermediate with
  | none => dataset
  | some im => (List.range im.length).foldl (min_value_step dataset ndviIdx) im

/-- The in-place updates of `addition` on the value lists of the copy:
`total_data += ...`, `total_clean += ...`, then
`normalized_data = total_data / total_clean` with NaN zeroed (rational
`0/0 = 0` realises the NaN replacement). -/
def addition_vals (dataset out0 : Dataset) : Dataset :=
  let out1 := out0.set 1 (List.zipWith (· + ·) (out0.getD 1 []) (dataset.getD 1 []))
  let out2 := out1.set 2 (List.zipWith (· + ·) (out1.getD 2 []) (dataset.getD 2 []))
  out2.set 0 (List.zipWith (fun a b => a / b) (out2.getD 1 []) (out2.getD 2 []))

/-- Embedding of `addition` (values only). -/
def addition (dataset : Dataset) (dataset_intermediate : Option Dataset) :
    Dataset :=
  match dataset_intermediate with
  | none => dataset
  | some im => addition_vals dataset im

/-! ### Heap model of the reducers

To state that the reducers mutate neither argument and return a fresh
copy, object identity is made explicit: a `Heap` is the list of allocated
datasets, arguments are heap indices, `copy(deep=True)` appends a fresh
cell, and every Python in-place assignment is a `set` of the cell it
writes.  Each wrapper returns the heap after the call and the index of the
returned dataset. -/

abbrev Heap := List Dataset

/-- `copy(deep=True)`: allocate a fresh cell holding a copy of `d`. -/
def heapAlloc (h : Heap) (d : Dataset) : Heap × ℕ := (h ++ [d], h.length)

/-- Heap-explicit `fill_nodata`: the only writes after the allocating copy
are the per-key masked assignments, all landing in the fresh cell. -/
def fill_nodata_heap (h : Heap) (dI : ℕ) (iI : Option ℕ) : Heap × ℕ :=
  match iI with
  | none => heapAlloc h (h.getD dI [])
  | some ii =>
      let a := heapAlloc h (h.getD ii [])
      let h2 := (List.range ((a.1.getD a.2 []).length)).foldl
        (fun hc k => hc.set a.2
          ((hc.getD a.2 []).set k
            (fill_nodata_var ((hc.getD dI []).getD k [])
              ((hc.getD a.2 []).getD k [])))) a.1
      (h2, a.2)

/-- Heap-explicit `max_value`. -/
def max_value_heap (h : Heap) (dI : ℕ) (iI : Option ℕ) (ndviIdx : ℕ) :
    Heap × ℕ :=
  match iI with
  | none => heapAlloc h (h.getD dI [])
  | some ii =>
      let a := heapAlloc h (h.getD ii [])
      let h2 := (List.range ((a.1.getD a.2 []).length)).foldl
        (fun hc k => hc.set a.2
          (max_value_step (hc.getD dI []) ndviIdx (hc.getD a.2 []) k)) a.1
      (h2, a.2)

/-- Heap-explicit `min_value`. -/
def min_value_heap (h : Heap) (dI : ℕ) (iI : Option ℕ) (ndviIdx : ℕ) :
    Heap × ℕ :=
  match iI with
  | none => heapAlloc h (h.getD dI [])
  | some ii =>
      let a := heapAlloc h (h.getD ii [])
      let h2 := (List.range ((a.1.getD a.2 []).length)).foldl
        (fun hc k => hc.set a.2
          (min_value_step (hc.getD dI []) ndviIdx (hc.getD a.2 []) k)) a.1
      (h2, a.2)

/-- Heap-explicit `addition`: the three in-place variable writes all land
in the fresh cell. -/
def addition_heap (h : Heap) (dI : ℕ) (iI : Option ℕ) : Heap × ℕ :=
  match iI with
  | none => heapAlloc h (h.getD dI [])
  | some ii =>
      let a := heapAlloc h (h.getD ii [])
      let h2 := a.1.set a.2 (addition_vals (a.1.getD dI []) (a.1.getD a.2 []))
      (h2, a.2)

/-! ## `compute_ndvi_anomaly` (dc_ndvi_anomaly.py)

The first statement of the body is
`assert selected_scene_clear_mask is not None and baseline_clear_mask is
not None, "Both the selected scene and baseline data must have associated
clear mask data."`; everything after it (cloud filtering, the baseline
median NDVI, `wofs_classify`, the anomaly differences) runs only when the
assertion passes.  `wofs_classify` is imported from
`dc_water_classifier`, which is not part of this repository's sources, so
the post-assertion computation is abstracted as an explicit function
argument `rest`; the claim settled here concerns only the assertion,
which is fully in source. -/

/-- Embedding of the control flow of `compute_ndvi_anomaly`: the
assertion is evaluated first, and the post-assertion body `rest` — which
receives the two datasets and the two (present) masks — runs only when
both masks are present.  `.error` models the `AssertionError`. -/
def compute_ndvi_anomaly {DS Mask Out : Type}
    (rest : DS → DS → Mask → Mask → Out)
    (baseline_data scene_data : DS)
    (baseline_clear_mask selected_scene_clear_mask : Option Mask) :
    Except String Out :=
  match selected_scene_clear_mask, baseline_clear_mask with
  | some sm, some bm => .ok (rest baseline_data scene_data bm sm)
  | _, _ =>
      .error "Both the selected scene and baseline data must have associated clear mask data."

/-! ## `DataAccessApi.get_scene_metadata` (data_access_api.py)

The underlying query (`get_dataset_by_extent`, a thin `datacube.Dataset`
load) is abstracted as the `QueryResult` it returns: its data variables
(`if not dataset:` tests their emptiness), its time coordinate values
(integer-coded datetimes), its geobox envelope and its geobox shape.
The returned Python `dict` is modelled as an association list in
insertion order; `none` models the `IndexError` that `dataset.time[0]`
raises when a non-empty dataset has an empty time coordinate. -/

/-- A value stored in the metadata dictionary. -/
inductive MetaVal where
  | qpair (a b : ℚ)
  | ipair (a b : ℤ)
  | count (n : ℕ)
  | emptyDict
deriving DecidableEq, Repr

/-- The dataset returned by the underlying extent query. -/
structure QueryResult where
  data_vars : List String
  times : List ℤ
  lat_min : ℚ
  lat_max : ℚ
  lon_min : ℚ
  lon_max : ℚ
  shape0 : ℕ
  shape1 : ℕ

/-- Embedding of `get_scene_metadata` applied to the dataset the query
returned. -/
def get_scene_metadata (ds : QueryResult) :
    Option (List (String × MetaVal)) :=
  if ds.data_vars.isEmpty then
    some [("lat_extents", .ipair 0 0),
          ("lon_extents", .ipair 0 0),
          ("time_extents", .ipair 0 0),
          ("scene_count", .count 0),
          ("pixel_count", .count 0),
          ("tile_count", .count 0),
          ("storage_units", .emptyDict)]
  else
    match ds.times.head?, ds.times.getLast? with
    | some t0, some tn =>
        some [("lat_extents", .qpair ds.lat_min ds.lat_max),
              ("lon_extents", .qpair ds.lon_min ds.lon_max),
              ("time_extents", .ipair t0 tn),
              ("scene_count", .count ds.times.length),
              ("pixel_count", .count (ds.shape0 * ds.shape1))]
    | _, _ => none

/-- A concrete empty query result (no data variables), for witnesses. -/
def emptyQueryResult : QueryResult :=
  { data_vars := [], times := [], lat_min := 0, lat_max := 0,
    lon_min := 0, lon_max := 0, shape0 := 0, shape1 := 0 }

/-- A concrete non-empty query result, for witnesses. -/
def sampleQueryResult : QueryResult :=
  { data_vars := ["red"], times := [5, 9], lat_min := 1, lat_max := 2,
    lon_min := 3, lon_max := 4, shape0 := 10, shape1 := 20 }

/-! ## Helper lemmas -/

/-- `getD` through `map`, inside the bounds. -/
theorem getD_map_of_lt {α β : Type} (f : α → β) (l : List α) (i : ℕ)
    (da : α) (db : β) (hi : i < l.length) :
    (l.map f).getD i db = f (l.getD i da) := by
  have h : l[i]? = some l[i] := List.getElem?_eq_getElem hi
  simp [List.getD_eq_getElem?_getD, List.getElem?_map, h]

/-- `getD` through `zipWith`, inside the bounds. -/
theorem getD_zipWith_of_lt {α β γ : Type} (f : α → β → γ) (a : List α)
    (b : List β) (i : ℕ) (da : α) (db : β) (dc : γ)
    (ha : i < a.length) (hb : i < b.length) :
    (List.zipWith f a b).getD i dc = f (a.getD i da) (b.getD i db) := by
  have ha' : a[i]? = some a[i] := List.getElem?_eq_getElem ha
  have hb' : b[i]? = some b[i] := List.getElem?_eq_getElem hb
  simp [List.getD_eq_getElem?_getD, List.getElem?_zipWith, ha', hb']

/-! ## C8: clean-mask correctness -/

/-- C8: `create_cfmask_clean_mask` returns a boolean array of the same
shape, `true` at exactly the pixels whose cfmask value is none of
`2` (cloud shadow), `3` (snow), `4` (cloud), `255` (fill) or `no_data`;
in particular, on the cfmask value domain `{0,1,2,3,4,255}`, `true` only
for clear-land (`0`) and water (`1`) pixels. -/
theorem create_cfmask_clean_mask_correct (cfmask : List ℤ) (no_data : ℤ) :
    (create_cfmask_clean_mask cfmask no_data).length = cfmask.length ∧
    ∀ i, i < cfmask.length →
      (((create_cfmask_clean_mask cfmask no_data).getD i false = true ↔
        ¬(cfmask.getD i 0 = 2 ∨ cfmask.getD i 0 = 3 ∨ cfmask.getD i 0 = 4 ∨
          cfmask.getD i 0 = 255 ∨ cfmask.getD i 0 = no_data)) ∧
      ((cfmask.getD i 0 = 0 ∨ cfmask.getD i 0 = 1 ∨ cfmask.getD i 0 = 2 ∨
          cfmask.getD i 0 = 3 ∨ cfmask.getD i 0 = 4 ∨ cfmask.getD i 0 = 255) →
        (create_cfmask_clean_mask cfmask no_data).getD i false = true →
        (cfmask.getD i 0 = 0 ∨ cfmask.getD i 0 = 1))) := by
  refine ⟨by simp [create_cfmask_clean_mask], fun i hi => ?_⟩
  rw [create_cfmask_clean_mask, getD_map_of_lt _ _ _ 0 _ hi]
  generalize cfmask.getD i 0 = v
  constructor
  · simp only [Bool.not_eq_true', decide_eq_false_iff_not]
  · intro hdom hmask
    simp only [Bool.not_eq_true', decide_eq_false_iff_not] at hmask
    tauto

/-- Witness for C8 at a concrete cfmask array. -/
theorem create_cfmask_clean_mask_correct_witness :
    (0 : ℕ) < ([0, 1, 2, 3, 4, 255, -9999] : List ℤ).length ∧
    (create_cfmask_clean_mask [0, 1, 2, 3, 4, 255, -9999] (-9999)).length =
      ([0, 1, 2, 3, 4, 255, -9999] : List ℤ).length ∧
    create_cfmask_clean_mask [0, 1, 2, 3, 4, 255, -9999] (-9999) =
      [true, true, false, false, false, false, false] ∧
    ((create_cfmask_clean_mask [0, 1, 2, 3, 4, 255, -9999] (-9999)).getD 0 false = true ↔
      ¬((([0, 1, 2, 3, 4, 255, -9999] : List ℤ).getD 0 0 = 2 ∨
        ([0, 1, 2, 3, 4, 255, -9999] : List ℤ).getD 0 0 = 3 ∨
        ([0, 1, 2, 3, 4, 255, -9999] : List ℤ).getD 0 0 = 4 ∨
        ([0, 1, 2, 3, 4, 255, -9999] : List ℤ).getD 0 0 = 255 ∨
        ([0, 1, 2, 3, 4, 255, -9999] : List ℤ).getD 0 0 = -9999))) :=
  ⟨by decide, (create_cfmask_clean_mask_correct [0, 1, 2, 3, 4, 255, -9999] (-9999)).1,
    by decide,
    (((create_cfmask_clean_mask_correct [0, 1, 2, 3, 4, 255, -9999] (-9999)).2 0
      (by decide)).1)⟩

/-! ## C3: NDVI formula -/

/-- C3: `NDVI` computes, pixelwise over the aligned `nir` and `red`
bands, `(nir - red) / (nir + red)`, and returns an array of the same
shape as the input bands. -/
theorem NDVI_matches_formula (nir red : List ℚ)
    (hlen : nir.length = red.length) :
    (NDVI nir red).length = nir.length ∧
    ∀ i, i < nir.length →
      (NDVI nir red).getD i 0 =
        (nir.getD i 0 - red.getD i 0) / (nir.getD i 0 + red.getD i 0) := by
  constructor
  · simp [NDVI, hlen]
  · intro i hi
    rw [NDVI, getD_zipWith_of_lt _ _ _ _ 0 0 _ hi (hlen ▸ hi)]
    rfl

/-- Witness for C3 on concrete bands. -/
theorem NDVI_matches_formula_witness :
    ([6, 1] : List ℚ).length = ([2, 3] : List ℚ).length ∧
    ((NDVI [6, 1] [2, 3]).length = ([6, 1] : List ℚ).length ∧
      ∀ i, i < ([6, 1] : List ℚ).length →
        (NDVI [6, 1] [2, 3]).getD i 0 =
          (([6, 1] : List ℚ).getD i 0 - ([2, 3] : List ℚ).getD i 0) /
            (([6, 1] : List ℚ).getD i 0 + ([2, 3] : List ℚ).getD i 0)) ∧
    NDVI [6, 1] [2, 3] = [1/2, -1/2] :=
  ⟨by decide, NDVI_matches_formula [6, 1] [2, 3] (by decide),
    by simp [NDVI, NDVI_pixel]; norm_num⟩

/-! ## C4: EVI output bounds -/

/-- The clamping step lands in `[-1, 5/2]`. -/
theorem EVI_clamp_mem (v : ℚ) : -1 ≤ EVI_clamp v ∧ EVI_clamp v ≤ 5/2 := by
  simp only [EVI_clamp]
  split_ifs <;> constructor <;> linarith

/-- C4: every value returned by `EVI` with `normalize = true` lies in
`[-1, 1]`; with `normalize = false` every value lies in `[-1, 5/2]`;
raw values below `-1` are clamped to `-1` and raw values above `5/2` to
`5/2`; positive clamped values are rescaled by `· * 2/5`, landing in
`(0, 1]`; non-positive outputs agree between the two modes.  (In `ℚ` all
values are finite; the non-finite numpy values arise only from a zero
denominator, excluded by the claim's restriction to finite values.) -/
theorem EVI_output_bounds (G C1 C2 L : ℚ) (nir red blue : List ℚ) :
    (∀ i, i < (EVI nir red blue G C1 C2 L true).length →
      -1 ≤ (EVI nir red blue G C1 C2 L true).getD i 0 ∧
        (EVI nir red blue G C1 C2 L true).getD i 0 ≤ 1) ∧
    (∀ i, i < (EVI nir red blue G C1 C2 L false).length →
      -1 ≤ (EVI nir red blue G C1 C2 L false).getD i 0 ∧
        (EVI nir red blue G C1 C2 L false).getD i 0 ≤ 5/2) ∧
    (∀ n r b, EVI_raw G C1 C2 L n r b < -1 →
      EVI_clamp (EVI_raw G C1 C2 L n r b) = -1) ∧
    (∀ n r b, 5/2 < EVI_raw G C1 C2 L n r b →
      EVI_clamp (EVI_raw G C1 C2 L n r b) = 5/2) ∧
    (∀ n r b, 0 < EVI_clamp (EVI_raw G C1 C2 L n r b) →
      EVI_pixel G C1 C2 L true n r b =
        EVI_clamp (EVI_raw G C1 C2 L n r b) * (2/5) ∧
      0 < EVI_pixel G C1 C2 L true n r b ∧
        EVI_pixel G C1 C2 L true n r b ≤ 1) ∧
    (∀ n r b, EVI_pixel G C1 C2 L false n r b ≤ 0 →
      EVI_pixel G C1 C2 L true n r b = EVI_pixel G C1 C2 L false n r b) := by
  have hfalse : ∀ n r b, EVI_pixel G C1 C2 L false n r b =
      EVI_clamp (EVI_raw G C1 C2 L n r b) := by
    intro n r b
    simp [EVI_pixel]
  have htrue_pos : ∀ n r b, 0 < EVI_clamp (EVI_raw G C1 C2 L n r b) →
      EVI_pixel G C1 C2 L true n r b =
        EVI_clamp (EVI_raw G C1 C2 L n r b) * (2/5) := by
    intro n r b h
    simp [EVI_pixel, h]
  have htrue_nonpos : ∀ n r b, EVI_clamp (EVI_raw G C1 C2 L n r b) ≤ 0 →
      EVI_pixel G C1 C2 L true n r b =
        EVI_clamp (EVI_raw G C1 C2 L n r b) := by
    intro n r b h
    simp [EVI_pixel, not_lt.mpr h]
  have hpix_true : ∀ n r b, -1 ≤ EVI_pixel G C1 C2 L true n r b ∧
      EVI_pixel G C1 C2 L true n r b ≤ 1 := by
    intro n r b
    obtain ⟨h1, h2⟩ := EVI_clamp_mem (EVI_raw G C1 C2 L n r b)
    rcases le_or_lt (EVI_clamp (EVI_raw G C1 C2 L n r b)) 0 with h | h
    · rw [htrue_nonpos n r b h]
      exact ⟨h1, by linarith⟩
    · rw [htrue_pos n r b h]
      constructor <;> nlinarith
  refine ⟨?_, ?_, ?_, ?_, ?_, ?_⟩
  · intro i hi
    simp only [EVI] at hi ⊢
    rw [getD_zipWith_of_lt _ _ _ _ 0 (0, 0) _
      (by simp at hi; omega) (by simp at hi ⊢; omega)]
    exact hpix_true _ _ _
  · intro i hi
    simp only [EVI] at hi ⊢
    rw [getD_zipWith_of_lt _ _ _ _ 0 (0, 0) _
      (by simp at hi; omega) (by simp at hi ⊢; omega)]
    rw [hfalse]
    exact EVI_clamp_mem _
  · intro n r b h
    simp only [EVI_clamp, if_pos h]
    norm_num
  · intro n r b h
    have h' : ¬ EVI_raw G C1 C2 L n r b < -1 := by linarith
    simp only [EVI_clamp, if_neg h', if_pos h]
  · intro n r b h
    obtain ⟨h1, h2⟩ := EVI_clamp_mem (EVI_raw G C1 C2 L n r b)
    refine ⟨htrue_pos n r b h, ?_, ?_⟩
    · rw [htrue_pos n r b h]; positivity
    · rw [htrue_pos n r b h]; nlinarith
  · intro n r b h
    rw [hfalse] at h ⊢
    rw [htrue_nonpos n r b h]

/-- Witness for C4 on concrete bands and the default coefficients:
`nir = 1, red = 0, blue = 0` gives raw EVI `5/4`, normalized `1/2`. -/
theorem EVI_output_bounds_witness :
    ((0 : ℕ) < (EVI [1] [0] [0] (5/2) 6 (15/2) 1 true).length ∧
      EVI_raw (5/2) 6 (15/2) 1 0 1 (9/10) < -1 ∧
      5/2 < EVI_raw (5/2) 6 (15/2) 1 1 0 (1/5) ∧
      0 < EVI_clamp (EVI_raw (5/2) 6 (15/2) 1 1 0 0) ∧
      EVI_pixel (5/2) 6 (15/2) 1 false 0 0 0 ≤ 0) ∧
    (-1 ≤ (EVI [1] [0] [0] (5/2) 6 (15/2) 1 true).getD 0 0 ∧
      (EVI [1] [0] [0] (5/2) 6 (15/2) 1 true).getD 0 0 ≤ 1) ∧
    EVI_clamp (EVI_raw (5/2) 6 (15/2) 1 0 1 (9/10)) = -1 ∧
    EVI_clamp (EVI_raw (5/2) 6 (15/2) 1 1 0 (1/5)) = 5/2 ∧
    EVI_pixel (5/2) 6 (15/2) 1 true 1 0 0 =
      EVI_clamp (EVI_raw (5/2) 6 (15/2) 1 1 0 0) * (2/5) ∧
    EVI_pixel (5/2) 6 (15/2) 1 true 0 0 0 =
      EVI_pixel (5/2) 6 (15/2) 1 false 0 0 0 := by
  have hlen : (0 : ℕ) < (EVI [1] [0] [0] (5/2) 6 (15/2) 1 true).length := by
    simp [EVI]
  have h1 : EVI_raw (5/2) 6 (15/2) 1 0 1 (9/10) < -1 := by
    norm_num [EVI_raw]
  have h2 : 5/2 < EVI_raw (5/2) 6 (15/2) 1 1 0 (1/5) := by
    norm_num [EVI_raw]
  have h3 : 0 < EVI_clamp (EVI_raw (5/2) 6 (15/2) 1 1 0 0) := by
    norm_num [EVI_clamp, EVI_raw]
  have h4 : EVI_pixel (5/2) 6 (15/2) 1 false 0 0 0 ≤ 0 := by
    norm_num [EVI_pixel, EVI_clamp, EVI_raw]
  have main := EVI_output_bounds (5/2) 6 (15/2) 1 [1] [0] [0]
  exact ⟨⟨hlen, h1, h2, h3, h4⟩, main.1 0 hlen, main.2.2.1 0 1 (9/10) h1,
    main.2.2.2.1 1 0 (1/5) h2, (main.2.2.2.2.1 1 0 0 h3).1,
    main.2.2.2.2.2 0 0 0 h4⟩

/-! ## C5: fill_nodata semantics -/

/-- C5: for aligned datasets, `fill_nodata(dataset, dataset_intermediate)`
returns, at every variable and pixel, the intermediate's value when it is
not `-9999` and `dataset`'s value when it is `-9999`; with
`dataset_intermediate = None` it returns a (deep copy of) `dataset`. -/
theorem fill_nodata_correct (dataset im : Dataset)
    (hv : dataset.length = im.length)
    (hp : ∀ k, k < im.length →
      (dataset.getD k []).length = (im.getD k []).length) :
    (fill_nodata dataset (some im)).length = dataset.length ∧
    (∀ k, k < im.length → ∀ i, i < (im.getD k []).length →
      ((fill_nodata dataset (some im)).getD k []).getD i 0 =
        if (im.getD k []).getD i 0 = -9999 then (dataset.getD k []).getD i 0
        else (im.getD k []).getD i 0) ∧
    fill_nodata dataset none = dataset := by
  refine ⟨by simp [fill_nodata, hv], ?_, rfl⟩
  intro k hk i hi
  rw [fill_nodata]
  rw [getD_zipWith_of_lt _ _ _ _ [] [] _ (by omega) hk]
  rw [fill_nodata_var]
  rw [getD_zipWith_of_lt _ _ _ _ 0 0 _ (by rw [hp k hk]; exact hi) hi]

/-- Witness for C5 on concrete aligned datasets. -/
theorem fill_nodata_correct_witness :
    ([[5, 6], [7, 8]] : Dataset).length = ([[1, -9999], [-9999, 4]] : Dataset).length ∧
    (∀ k, k < ([[1, -9999], [-9999, 4]] : Dataset).length →
      (([[5, 6], [7, 8]] : Dataset).getD k []).length =
        (([[1, -9999], [-9999, 4]] : Dataset).getD k []).length) ∧
    ((fill_nodata [[5, 6], [7, 8]] (some [[1, -9999], [-9999, 4]])).length =
        ([[5, 6], [7, 8]] : Dataset).length ∧
      (∀ k, k < ([[1, -9999], [-9999, 4]] : Dataset).length →
        ∀ i, i < (([[1, -9999], [-9999, 4]] : Dataset).getD k []).length →
        ((fill_nodata [[5, 6], [7, 8]] (some [[1, -9999], [-9999, 4]])).getD k []).getD i 0 =
          if (([[1, -9999], [-9999, 4]] : Dataset).getD k []).getD i 0 = -9999
          then (([[5, 6], [7, 8]] : Dataset).getD k []).getD i 0
          else (([[1, -9999], [-9999, 4]] : Dataset).getD k []).getD i 0) ∧
      fill_nodata [[5, 6], [7, 8]] none = [[5, 6], [7, 8]]) ∧
    fill_nodata [[5, 6], [7, 8]] (some [[1, -9999], [-9999, 4]]) =
      [[1, 6], [7, 4]] := by
  have h1 : ([[5, 6], [7, 8]] : Dataset).length =
      ([[1, -9999], [-9999, 4]] : Dataset).length := rfl
  have h2 : ∀ k, k < ([[1, -9999], [-9999, 4]] : Dataset).length →
      (([[5, 6], [7, 8]] : Dataset).getD k []).length =
        (([[1, -9999], [-9999, 4]] : Dataset).getD k []).length := by
    decide
  refine ⟨h1, h2, fill_nodata_correct [[5, 6], [7, 8]] [[1, -9999], [-9999, 4]] h1 h2, ?_⟩
  norm_num [fill_nodata, fill_nodata_var]

/-! ## C7: the assertion of compute_ndvi_anomaly -/

/-- C7: `compute_ndvi_anomaly` raises `AssertionError` exactly when one of
the clear masks is `None`, and the check precedes the computation: on the
error path the result does not depend on the input datasets or on the
post-assertion body. -/
theorem compute_ndvi_anomaly_assert {DS Mask Out : Type}
    (rest : DS → DS → Mask → Mask → Out) (baseline scene : DS)
    (bm sm : Option Mask) :
    ((∃ e, compute_ndvi_anomaly rest baseline scene bm sm =
        Except.error e) ↔ (bm = none ∨ sm = none)) ∧
    ((bm = none ∨ sm = none) →
      ∀ (rest2 : DS → DS → Mask → Mask → Out) (baseline2 scene2 : DS),
        compute_ndvi_anomaly rest2 baseline2 scene2 bm sm =
          compute_ndvi_anomaly rest baseline scene bm sm) := by
  rcases bm with _ | b <;> rcases sm with _ | s
  · exact ⟨⟨fun _ => Or.inl rfl, fun _ => ⟨_, rfl⟩⟩, fun _ _ _ _ => rfl⟩
  · exact ⟨⟨fun _ => Or.inl rfl, fun _ => ⟨_, rfl⟩⟩, fun _ _ _ _ => rfl⟩
  · exact ⟨⟨fun _ => Or.inr rfl, fun _ => ⟨_, rfl⟩⟩, fun _ _ _ _ => rfl⟩
  · refine ⟨⟨?_, ?_⟩, ?_⟩
    · rintro ⟨e, he⟩
      simp [compute_ndvi_anomaly] at he
    · rintro (h | h) <;> simp at h
    · rintro (h | h) <;> simp at h

/-- Witness for C7: a missing baseline mask raises; the result there is
independent of datasets and body. -/
theorem compute_ndvi_anomaly_assert_witness :
    ((none : Option ℕ) = none ∨ (some 1 : Option ℕ) = none) ∧
    (∃ e, compute_ndvi_anomaly (fun (_ _ : ℕ) (_ _ : ℕ) => (0 : ℕ)) 10 20
        none (some 1) = Except.error e) ∧
    compute_ndvi_anomaly (fun (_ _ : ℕ) (_ _ : ℕ) => (7 : ℕ)) 88 99
        none (some 1) =
      compute_ndvi_anomaly (fun (_ _ : ℕ) (_ _ : ℕ) => (0 : ℕ)) 10 20
        none (some 1) := by
  have main := compute_ndvi_anomaly_assert
    (fun (_ _ : ℕ) (_ _ : ℕ) => (0 : ℕ)) 10 20 (none : Option ℕ) (some 1)
  exact ⟨Or.inl rfl, main.1.mpr (Or.inl rfl),
    main.2 (Or.inl rfl) (fun _ _ _ _ => 7) 88 99⟩

/-! ## C9: get_scene_metadata result shape -/

/-- C9: on an empty query result `get_scene_metadata` returns the
dictionary with `(0, 0)` extents, zero counts, a zero `tile_count` and an
empty `storage_units`; on a non-empty result it returns exactly the keys
`lat_extents`, `lon_extents`, `time_extents`, `scene_count`,
`pixel_count`, and neither `tile_count` nor `storage_units`. -/
theorem get_scene_metadata_shape (ds : QueryResult) :
    (ds.data_vars = [] →
      get_scene_metadata ds =
        some [("lat_extents", .ipair 0 0),
              ("lon_extents", .ipair 0 0),
              ("time_extents", .ipair 0 0),
              ("scene_count", .count 0),
              ("pixel_count", .count 0),
              ("tile_count", .count 0),
              ("storage_units", .emptyDict)]) ∧
    (ds.data_vars ≠ [] → ds.times ≠ [] →
      ∃ l, get_scene_metadata ds = some l ∧
        l.map Prod.fst =
          ["lat_extents", "lon_extents", "time_extents",
           "scene_count", "pixel_count"] ∧
        "tile_count" ∉ l.map Prod.fst ∧
        "storage_units" ∉ l.map Prod.fst) := by
  constructor
  · intro h
    simp [get_scene_metadata, h]
  · intro hvars htimes
    obtain ⟨t, ts, hts⟩ := List.exists_cons_of_ne_nil htimes
    have hhead : ds.times.head? = some t := by rw [hts]; rfl
    have hlast : ∃ tn, ds.times.getLast? = some tn := by
      rw [hts]
      exact ⟨(t :: ts).getLast (by simp), List.getLast?_eq_getLast _ _⟩
    obtain ⟨tn, hlast⟩ := hlast
    refine ⟨[("lat_extents", .qpair ds.lat_min ds.lat_max),
             ("lon_extents", .qpair ds.lon_min ds.lon_max),
             ("time_extents", .ipair t tn),
             ("scene_count", .count ds.times.length),
             ("pixel_count", .count (ds.shape0 * ds.shape1))],
      ?_, by simp, by simp, by simp⟩
    rw [get_scene_metadata, if_neg (by simpa [List.isEmpty_iff] using hvars),
      hhead, hlast]

/-- Witness for C9 on a concrete empty and a concrete non-empty query
result. -/
theorem get_scene_metadata_shape_witness :
    (emptyQueryResult.data_vars = [] ∧
      sampleQueryResult.data_vars ≠ [] ∧ sampleQueryResult.times ≠ []) ∧
    get_scene_metadata emptyQueryResult =
      some [("lat_extents", .ipair 0 0),
            ("lon_extents", .ipair 0 0),
            ("time_extents", .ipair 0 0),
            ("scene_count", .count 0),
            ("pixel_count", .count 0),
            ("tile_count", .count 0),
            ("storage_units", .emptyDict)] ∧
    (∃ l, get_scene_metadata sampleQueryResult = some l ∧
      l.map Prod.fst =
        ["lat_extents", "lon_extents", "time_extents",
         "scene_count", "pixel_count"] ∧
      "tile_count" ∉ l.map Prod.fst ∧
      "storage_units" ∉ l.map Prod.fst) :=
  ⟨⟨rfl, by simp [sampleQueryResult], by simp [sampleQueryResult]⟩,
    (get_scene_metadata_shape emptyQueryResult).1 rfl,
    (get_scene_metadata_shape sampleQueryResult).2
      (by simp [sampleQueryResult]) (by simp [sampleQueryResult])⟩

/-! ## C1: incremental aggregation equals single-shot aggregation -/

/-- `total_data` sums over a concatenation of time chunks. -/
theorem totalData_append (a b : List ℚ) (nd : ℚ) :
    totalData (a ++ b) nd = totalData a nd + totalData b nd := by
  simp [totalData]

/-- `total_clean` sums over a concatenation of time chunks. -/
theorem totalClean_append (a b : List ℚ) (nd : ℚ) :
    totalClean (a ++ b) nd = totalClean a nd + totalClean b nd := by
  simp [totalClean]

/-- Accumulator invariant of the iterative fold, from an arbitrary
intermediate product. -/
theorem iterate_chunks_invariant (nd : ℚ) (cs : List (List ℚ)) :
    ∀ s : TSOut, ∃ out : TSOut,
      cs.foldl
        (fun acc c =>
          some (perform_timeseries_analysis_iterative c acc nd))
        (some s) = some out ∧
      out.total_data = s.total_data + totalData cs.flatten nd ∧
      out.total_clean = s.total_clean + totalClean cs.flatten nd ∧
      (cs = [] → out = s) ∧
      (cs ≠ [] →
        out.normalized_data = out.total_data / out.total_clean) := by
  induction cs with
  | nil =>
      intro s
      exact ⟨s, rfl, by simp [totalData], by simp [totalClean],
        fun _ => rfl, fun h => absurd rfl h⟩
  | cons c cs ih =>
      intro s
      obtain ⟨out, h1, h2, h3, h4, h5⟩ :=
        ih (perform_timeseries_analysis_iterative c (some s) nd)
      refine ⟨out, h1, ?_, ?_, by simp, fun _ => ?_⟩
      · rw [h2]
        simp only [perform_timeseries_analysis_iterative, List.flatten_cons,
          totalData_append]
        ring
      · rw [h3]
        simp only [perform_timeseries_analysis_iterative, List.flatten_cons,
          totalClean_append]
        ring
      · rcases eq_or_ne cs [] with hcs | hcs
        · subst hcs
          rw [h4 rfl]
          simp [perform_timeseries_analysis_iterative]
        · exact h5 hcs

/-- C1: folding `perform_timeseries_analysis_iterative` over any
partition of the time axis into chunks (the previous result passed as
`intermediate_product`, starting from `None`) yields the same
`total_data` and `total_clean` as `perform_timeseries_analysis` on the
whole series, and the same `normalized_data` wherever `total_clean` is
nonzero.  Stated per pixel, all operations being pixelwise. -/
theorem iterative_equals_single_shot (series : List ℚ)
    (parts : List (List ℚ)) (nd : ℚ)
    (hjoin : parts.flatten = series) (hne : parts ≠ []) :
    ∃ out, iterate_timeseries_chunks parts nd = some out ∧
      out.total_data = (perform_timeseries_analysis series nd).total_data ∧
      out.total_clean = (perform_timeseries_analysis series nd).total_clean ∧
      ((perform_timeseries_analysis series nd).total_clean ≠ 0 →
        out.normalized_data =
          (perform_timeseries_analysis series nd).normalized_data) := by
  subst hjoin
  obtain ⟨c, cs, rfl⟩ := List.exists_cons_of_ne_nil hne
  rw [iterate_timeseries_chunks]
  simp only [List.foldl_cons]
  obtain ⟨out, h1, h2, h3, h4, h5⟩ :=
    iterate_chunks_invariant nd cs
      (perform_timeseries_analysis_iterative c none nd)
  have htd : out.total_data = totalData (c :: cs).flatten nd := by
    rw [h2]
    simp only [perform_timeseries_analysis_iterative, List.flatten_cons,
      totalData_append]
  have htc : out.total_clean = totalClean (c :: cs).flatten nd := by
    rw [h3]
    simp only [perform_timeseries_analysis_iterative, List.flatten_cons,
      totalClean_append]
  refine ⟨out, h1, ?_, ?_, fun _ => ?_⟩
  · rw [htd]; rfl
  · rw [htc]; rfl
  · have hnorm : out.normalized_data = out.total_data / out.total_clean := by
      rcases eq_or_ne cs [] with hcs | hcs
      · subst hcs
        rw [h4 rfl]
        simp [perform_timeseries_analysis_iterative]
      · exact h5 hcs
    rw [hnorm, htd, htc]
    rfl

/-- Witness for C1: the series `[5, -9999, 3]` split into the chunks
`[[5], [-9999, 3]]`, with `no_data = -9999`. -/
theorem iterative_equals_single_shot_witness :
    (([[5], [-9999, 3]] : List (List ℚ)).flatten = [5, -9999, 3] ∧
      ([[5], [-9999, 3]] : List (List ℚ)) ≠ [] ∧
      (perform_timeseries_analysis [5, -9999, 3] (-9999)).total_clean ≠ 0) ∧
    (∃ out, iterate_timeseries_chunks [[5], [-9999, 3]] (-9999) = some out ∧
      out.total_data =
        (perform_timeseries_analysis [5, -9999, 3] (-9999)).total_data ∧
      out.total_clean =
        (perform_timeseries_analysis [5, -9999, 3] (-9999)).total_clean ∧
      ((perform_timeseries_analysis [5, -9999, 3] (-9999)).total_clean ≠ 0 →
        out.normalized_data =
          (perform_timeseries_analysis [5, -9999, 3] (-9999)).normalized_data)) ∧
    iterate_timeseries_chunks [[5], [-9999, 3]] (-9999) =
      some { normalized_data := 4, total_data := 8, total_clean := 2 } := by
  have hclean : (perform_timeseries_analysis [5, -9999, 3] (-9999)).total_clean ≠ 0 := by
    norm_num [perform_timeseries_analysis, totalClean]
  refine ⟨⟨rfl, by simp, hclean⟩,
    iterative_equals_single_shot [5, -9999, 3] [[5], [-9999, 3]] (-9999) rfl (by simp), ?_⟩
  simp only [iterate_timeseries_chunks, List.foldl_cons, List.foldl_nil,
    perform_timeseries_analysis_iterative, totalData, totalClean]
  norm_num

/-! ## C2/C10: lemmas about `chunksF` -/

/-- Unfolding of `chunksF` on a non-empty list and positive size. -/
theorem chunksF_cons (x : α) (xs : List α) (m : ℕ) :
    chunksF (x :: xs) (m + 1) =
      (x :: xs).take (m + 1) :: chunksF ((x :: xs).drop (m + 1)) (m + 1) := by
  rw [chunksF]

/-- `chunksF` returns no chunks exactly on the empty list. -/
theorem chunksF_eq_nil_iff (l : List α) (m : ℕ) :
    chunksF l (m + 1) = [] ↔ l = [] := by
  cases l with
  | nil => simp [chunksF]
  | cons x xs => simp [chunksF_cons]

/-- Concatenating the chunks restores the list. -/
theorem chunksF_flatten (m : ℕ) :
    ∀ (k : ℕ) (l : List α), l.length ≤ k →
      (chunksF l (m + 1)).flatten = l := by
  intro k
  induction k with
  | zero =>
      intro l hl
      have : l = [] := List.eq_nil_of_length_eq_zero (Nat.le_zero.mp hl)
      subst this
      simp [chunksF]
  | succ k ih =>
      intro l hl
      cases l with
      | nil => simp [chunksF]
      | cons x xs =>
          rw [chunksF_cons, List.flatten_cons,
            ih ((x :: xs).drop (m + 1)) (by simp at hl ⊢; omega)]
          exact List.take_append_drop _ _

/-- Every chunk is non-empty and no longer than the chunk size. -/
theorem chunksF_mem_length (m : ℕ) :
    ∀ (k : ℕ) (l : List α), l.length ≤ k →
      ∀ c ∈ chunksF l (m + 1), c ≠ [] ∧ c.length ≤ m + 1 := by
  intro k
  induction k with
  | zero =>
      intro l hl c hc
      have : l = [] := List.eq_nil_of_length_eq_zero (Nat.le_zero.mp hl)
      subst this
      simp [chunksF] at hc
  | succ k ih =>
      intro l hl c hc
      cases l with
      | nil => simp [chunksF] at hc
      | cons x xs =>
          rw [chunksF_cons] at hc
          rcases List.mem_cons.mp hc with h | h
          · subst h
            constructor
            · simp
            · simp
          · exact ih _ (by
              simp only [List.length_drop, List.length_cons] at hl ⊢
              omega) c h

/-- Every chunk except the last has length exactly the chunk size. -/
theorem chunksF_dropLast_length (m : ℕ) :
    ∀ (k : ℕ) (l : List α), l.length ≤ k →
      ∀ c ∈ (chunksF l (m + 1)).dropLast, c.length = m + 1 := by
  intro k
  induction k with
  | zero =>
      intro l hl c hc
      have : l = [] := List.eq_nil_of_length_eq_zero (Nat.le_zero.mp hl)
      subst this
      simp [chunksF] at hc
  | succ k ih =>
      intro l hl c hc
      cases l with
      | nil => simp [chunksF] at hc
      | cons x xs =>
          rw [chunksF_cons] at hc
          rcases eq_or_ne (chunksF ((x :: xs).drop (m + 1)) (m + 1)) [] with hrest | hrest
          · rw [hrest] at hc
            simp at hc
          · rw [List.dropLast_cons_of_ne_nil hrest] at hc
            rcases List.mem_cons.mp hc with h | h
            · subst h
              have hne : (x :: xs).drop (m + 1) ≠ [] :=
                fun hd => hrest ((chunksF_eq_nil_iff _ m).mpr hd)
              have hlen : m + 1 < xs.length + 1 := by
                by_contra hle
                exact hne (List.drop_eq_nil_of_le
                  (by simp only [List.length_cons]; omega))
              simpa using Nat.min_eq_left (by omega)
            · exact ih _ (by
                simp only [List.length_drop, List.length_cons] at hl ⊢
                omega) c h

/-! ## C2: temporal chunking is a partition -/

/-- C2: for a non-empty acquisitions list and positive `time_chunks`,
`split_task` returns `time_ranges` whose concatenation is exactly the
acquisitions sorted ascending (descending when `reverse_time`), split
into consecutive runs of `ceil(n / time_chunks)` elements with only the
last run possibly shorter; with `time_chunks = None` a single run holds
all sorted acquisitions. -/
theorem split_task_time_partition (acquisitions : List ℤ) (tc : ℤ)
    (rev : Bool) (hacq : acquisitions ≠ []) (htc : 1 ≤ tc) :
    (∃ rs, split_task_time_ranges acquisitions (some tc) rev = some rs ∧
      rs.flatten.Perm acquisitions ∧
      (if rev then rs.flatten.Sorted (· ≥ ·)
        else rs.flatten.Sorted (· ≤ ·)) ∧
      rs ≠ [] ∧
      (∀ c ∈ rs.dropLast,
        c.length = (⌈(acquisitions.length : ℚ) / (tc : ℚ)⌉).toNat) ∧
      ∀ h : rs ≠ [],
        0 < (rs.getLast h).length ∧
        (rs.getLast h).length ≤
          (⌈(acquisitions.length : ℚ) / (tc : ℚ)⌉).toNat) ∧
    (∃ base, split_task_time_ranges acquisitions none rev = some [base] ∧
      base.Perm acquisitions ∧
      (if rev then base.Sorted (· ≥ ·) else base.Sorted (· ≤ ·))) := by
  have hsorted : (pySorted acquisitions).Sorted (· ≤ ·) :=
    List.sorted_insertionSort _ _
  have hperm : (pySorted acquisitions).Perm acquisitions :=
    List.perm_insertionSort _ _
  have hlen : (pySorted acquisitions).length = acquisitions.length :=
    hperm.length_eq
  have hbperm :
      (if rev then (pySorted acquisitions).reverse
        else pySorted acquisitions).Perm acquisitions := by
    cases rev
    · simpa using hperm
    · simpa using (List.reverse_perm _).trans hperm
  have hbsorted :
      if rev then (if rev then (pySorted acquisitions).reverse
          else pySorted acquisitions).Sorted (· ≥ ·)
        else (if rev then (pySorted acquisitions).reverse
          else pySorted acquisitions).Sorted (· ≤ ·) := by
    cases rev
    · simpa using hsorted
    · simp only [if_true, Bool.true_eq]
      simpa [List.Sorted, List.pairwise_reverse] using hsorted
  have hpne : pySorted acquisitions ≠ [] :=
    List.ne_nil_of_length_pos (by rw [hlen]; exact List.length_pos.mpr hacq)
  have hbne : (if rev then (pySorted acquisitions).reverse
      else pySorted acquisitions) ≠ [] := by
    cases rev <;> simp [hpne]
  have htc0 : tc ≠ 0 := by omega
  have hnpos : 0 < acquisitions.length := List.length_pos.mpr hacq
  have hq : (0 : ℚ) < (acquisitions.length : ℚ) / (tc : ℚ) :=
    div_pos (by exact_mod_cast hnpos) (by exact_mod_cast htc)
  have hspos : 0 < ⌈(acquisitions.length : ℚ) / (tc : ℚ)⌉ :=
    Int.ceil_pos.mpr hq
  obtain ⟨m, hm⟩ :
      ∃ m, (⌈(acquisitions.length : ℚ) / (tc : ℚ)⌉).toNat = m + 1 :=
    ⟨(⌈(acquisitions.length : ℚ) / (tc : ℚ)⌉).toNat - 1, by omega⟩
  refine ⟨⟨chunksF (if rev then (pySorted acquisitions).reverse
      else pySorted acquisitions) (m + 1), ?_, ?_, ?_, ?_, ?_, ?_⟩,
    ⟨(if rev then (pySorted acquisitions).reverse
      else pySorted acquisitions), ?_, hbperm, hbsorted⟩⟩
  · simp only [split_task_time_ranges, chunksOpt, if_neg htc0, hlen,
      if_neg (show ¬ ⌈(acquisitions.length : ℚ) / (tc : ℚ)⌉ = 0 by omega),
      if_neg (show ¬ ⌈(acquisitions.length : ℚ) / (tc : ℚ)⌉ < 0 by omega),
      hm]
  · rw [chunksF_flatten m _ _ le_rfl]
    exact hbperm
  · rw [chunksF_flatten m _ _ le_rfl]
    exact hbsorted
  · rw [Ne, chunksF_eq_nil_iff]
    exact hbne
  · intro c hc
    rw [hm]
    exact chunksF_dropLast_length m _ _ le_rfl c hc
  · intro h
    have hmem := List.getLast_mem h
    obtain ⟨hne, hle⟩ := chunksF_mem_length m _ _ le_rfl _ hmem
    exact ⟨List.length_pos.mpr hne, by rw [hm]; exact hle⟩
  · simp only [split_task_time_ranges]

/-- Witness for C2: `acquisitions = [3, 1, 2]`, `time_chunks = 2`
(ascending order), chunk size `⌈3/2⌉ = 2`, runs `[[1, 2], [3]]`. -/
theorem split_task_time_partition_witness :
    (([3, 1, 2] : List ℤ) ≠ [] ∧ (1 : ℤ) ≤ 2) ∧
    ((∃ rs, split_task_time_ranges [3, 1, 2] (some 2) false = some rs ∧
      rs.flatten.Perm [3, 1, 2] ∧
      (if false then rs.flatten.Sorted (· ≥ ·)
        else rs.flatten.Sorted (· ≤ ·)) ∧
      rs ≠ [] ∧
      (∀ c ∈ rs.dropLast,
        c.length = (⌈(([3, 1, 2] : List ℤ).length : ℚ) / ((2 : ℤ) : ℚ)⌉).toNat) ∧
      ∀ h : rs ≠ [],
        0 < (rs.getLast h).length ∧
        (rs.getLast h).length ≤
          (⌈(([3, 1, 2] : List ℤ).length : ℚ) / ((2 : ℤ) : ℚ)⌉).toNat) ∧
    (∃ base, split_task_time_ranges [3, 1, 2] none false = some [base] ∧
      base.Perm [3, 1, 2] ∧
      (if false then base.Sorted (· ≥ ·) else base.Sorted (· ≤ ·)))) ∧
    split_task_time_ranges [3, 1, 2] (some 2) false = some [[1, 2], [3]] := by
  have h32 : (⌈(3 : ℚ) / 2⌉ : ℤ) = 2 := by
    norm_num [Int.ceil_eq_iff]
  refine ⟨⟨by simp, by norm_num⟩,
    split_task_time_partition [3, 1, 2] 2 false (by simp) (by norm_num), ?_⟩
  simp only [split_task_time_ranges, pySorted, chunksOpt]
  norm_num [List.insertionSort, List.orderedInsert, h32]
  simp [chunksF]

/-! ## C10: totality of split_task over the acquisitions list -/

/-- C10 counterexample: the claim quantifies over every call with
`time_chunks` not `None`; at `time_chunks = 0` the call raises
(`ZeroDivisionError` in `len / time_chunks`) even though the
acquisitions list `[0]` is non-empty, so "the call returns normally"
fails. -/
theorem split_task_zero_chunks_counterexample :
    ([0] : List ℤ) ≠ [] ∧
    split_task_time_ranges [0] (some 0) false = none := by
  constructor
  · simp
  · simp [split_task_time_ranges]

/-- C10 (amended to positive `time_chunks`): with `time_chunks` a
positive integer, a non-empty acquisitions list gives a positive computed
chunk size and a normal return, while an empty acquisitions list gives
chunk size `0` and the call raises (`range` step `0`), modelled by
`none`. -/
theorem split_task_totality (acquisitions : List ℤ) (tc : ℤ) (rev : Bool)
    (htc : 1 ≤ tc) :
    (acquisitions ≠ [] →
      1 ≤ ⌈(acquisitions.length : ℚ) / (tc : ℚ)⌉ ∧
      ∃ rs, split_task_time_ranges acquisitions (some tc) rev = some rs) ∧
    (acquisitions = [] →
      ⌈(acquisitions.length : ℚ) / (tc : ℚ)⌉ = 0 ∧
      split_task_time_ranges acquisitions (some tc) rev = none) := by
  have hlen : (pySorted acquisitions).length = acquisitions.length :=
    (List.perm_insertionSort _ _).length_eq
  have htc0 : tc ≠ 0 := by omega
  constructor
  · intro hacq
    have hnpos : 0 < acquisitions.length := List.length_pos.mpr hacq
    have hq : (0 : ℚ) < (acquisitions.length : ℚ) / (tc : ℚ) :=
      div_pos (by exact_mod_cast hnpos) (by exact_mod_cast htc)
    have hspos : 0 < ⌈(acquisitions.length : ℚ) / (tc : ℚ)⌉ :=
      Int.ceil_pos.mpr hq
    refine ⟨by omega, ⟨chunksF (if rev then (pySorted acquisitions).reverse
      else pySorted acquisitions)
      (⌈(acquisitions.length : ℚ) / (tc : ℚ)⌉).toNat, ?_⟩⟩
    simp only [split_task_time_ranges, chunksOpt, if_neg htc0, hlen,
      if_neg (show ¬ ⌈(acquisitions.length : ℚ) / (tc : ℚ)⌉ = 0 by omega),
      if_neg (show ¬ ⌈(acquisitions.length : ℚ) / (tc : ℚ)⌉ < 0 by omega)]
  · intro hacq
    subst hacq
    refine ⟨by simp, ?_⟩
    simp [split_task_time_ranges, chunksOpt, if_neg htc0, pySorted]

/-- Witness for C10's amended theorem: the non-empty list `[7]` with
`time_chunks = 3` returns normally; the empty list with
`time_chunks = 3` raises. -/
theorem split_task_totality_witness :
    ((1 : ℤ) ≤ 3 ∧ ([7] : List ℤ) ≠ [] ∧ ([] : List ℤ) = []) ∧
    (1 ≤ ⌈(([7] : List ℤ).length : ℚ) / ((3 : ℤ) : ℚ)⌉ ∧
      ∃ rs, split_task_time_ranges [7] (some 3) false = some rs) ∧
    (⌈(([] : List ℤ).length : ℚ) / ((3 : ℤ) : ℚ)⌉ = 0 ∧
      split_task_time_ranges [] (some 3) false = none) :=
  ⟨⟨by norm_num, by simp, rfl⟩,
    (split_task_totality [7] 3 false (by norm_num)).1 (by simp),
    (split_task_totality [] 3 false (by norm_num)).2 rfl⟩

/-! ## C6: the reducers mutate neither argument -/

/-- Entries other than `outI` survive a fold of in-place writes to
`outI`. -/
theorem foldl_set_getD_ne (step : Heap → ℕ → Dataset) (outI : ℕ) :
    ∀ (l : List ℕ) (h : Heap) (j : ℕ), j ≠ outI →
      (l.foldl (fun hc k => hc.set outI (step hc k)) h).getD j [] =
        h.getD j [] := by
  intro l
  induction l with
  | nil => intro h j hj; rfl
  | cons k ks ih =>
      intro h j hj
      rw [List.foldl_cons, ih _ _ hj]
      simp [List.getD_eq_getElem?_getD,
        List.getElem?_set_ne (fun hh => hj hh.symm)]

/-- Entries below the allocation point survive an allocation. -/
theorem getD_heapAlloc_lt (h : Heap) (d : Dataset) (j : ℕ)
    (hj : j < h.length) :
    (heapAlloc h d).1.getD j [] = h.getD j [] := by
  simp [heapAlloc, List.getD_eq_getElem?_getD, List.getElem?_append_left hj]

/-- C6: `fill_nodata`, `max_value`, `min_value` and `addition` leave every
previously allocated dataset — in particular both arguments — unchanged,
and return a freshly allocated dataset whose heap cell is distinct from
both arguments' cells. -/
theorem reducers_no_mutation :
    (∀ (h : Heap) (dI : ℕ) (iI : Option ℕ), dI < h.length →
      (∀ ii, iI = some ii → ii < h.length) →
      (∀ j, j < h.length →
        (fill_nodata_heap h dI iI).1.getD j [] = h.getD j []) ∧
      (fill_nodata_heap h dI iI).2 = h.length ∧
      (fill_nodata_heap h dI iI).2 ≠ dI ∧
      (∀ ii, iI = some ii → (fill_nodata_heap h dI iI).2 ≠ ii)) ∧
    (∀ (h : Heap) (dI : ℕ) (iI : Option ℕ) (ndviIdx : ℕ), dI < h.length →
      (∀ ii, iI = some ii → ii < h.length) →
      (∀ j, j < h.length →
        (max_value_heap h dI iI ndviIdx).1.getD j [] = h.getD j []) ∧
      (max_value_heap h dI iI ndviIdx).2 = h.length ∧
      (max_value_heap h dI iI ndviIdx).2 ≠ dI ∧
      (∀ ii, iI = some ii → (max_value_heap h dI iI ndviIdx).2 ≠ ii)) ∧
    (∀ (h : Heap) (dI : ℕ) (iI : Option ℕ) (ndviIdx : ℕ), dI < h.length →
      (∀ ii, iI = some ii → ii < h.length) →
      (∀ j, j < h.length →
        (min_value_heap h dI iI ndviIdx).1.getD j [] = h.getD j []) ∧
      (min_value_heap h dI iI ndviIdx).2 = h.length ∧
      (min_value_heap h dI iI ndviIdx).2 ≠ dI ∧
      (∀ ii, iI = some ii → (min_value_heap h dI iI ndviIdx).2 ≠ ii)) ∧
    (∀ (h : Heap) (dI : ℕ) (iI : Option ℕ), dI < h.length →
      (∀ ii, iI = some ii → ii < h.length) →
      (∀ j, j < h.length →
        (addition_heap h dI iI).1.getD j [] = h.getD j []) ∧
      (addition_heap h dI iI).2 = h.length ∧
      (addition_heap h dI iI).2 ≠ dI ∧
      (∀ ii, iI = some ii → (addition_heap h dI iI).2 ≠ ii)) := by
  refine ⟨?_, ?_, ?_, ?_⟩
  · intro h dI iI hd hi
    cases iI with
    | none =>
        exact ⟨fun j hj => getD_heapAlloc_lt h _ j hj, rfl,
          by show h.length ≠ dI; omega, fun ii hii => by cases hii⟩
    | some ii =>
        refine ⟨fun j hj => ?_, rfl, by show h.length ≠ dI; omega,
          fun ii2 hii2 => by
            have := hi ii2 hii2
            show h.length ≠ ii2
            omega⟩
        show (List.foldl _ (heapAlloc h (h.getD ii [])).1 _).getD j [] = _
        rw [foldl_set_getD_ne _ _ _ _ j (by simp [heapAlloc]; omega)]
        exact getD_heapAlloc_lt h _ j hj
  · intro h dI iI ndviIdx hd hi
    cases iI with
    | none =>
        exact ⟨fun j hj => getD_heapAlloc_lt h _ j hj, rfl,
          by show h.length ≠ dI; omega, fun ii hii => by cases hii⟩
    | some ii =>
        refine ⟨fun j hj => ?_, rfl, by show h.length ≠ dI; omega,
          fun ii2 hii2 => by
            have := hi ii2 hii2
            show h.length ≠ ii2
            omega⟩
        show (List.foldl _ (heapAlloc h (h.getD ii [])).1 _).getD j [] = _
        rw [foldl_set_getD_ne _ _ _ _ j (by simp [heapAlloc]; omega)]
        exact getD_heapAlloc_lt h _ j hj
  · intro h dI iI ndviIdx hd hi
    cases iI with
    | none =>
        exact ⟨fun j hj => getD_heapAlloc_lt h _ j hj, rfl,
          by show h.length ≠ dI; omega, fun ii hii => by cases hii⟩
    | some ii =>
        refine ⟨fun j hj => ?_, rfl, by show h.length ≠ dI; omega,
          fun ii2 hii2 => by
            have := hi ii2 hii2
            show h.length ≠ ii2
            omega⟩
        show (List.foldl _ (heapAlloc h (h.getD ii [])).1 _).getD j [] = _
        rw [foldl_set_getD_ne _ _ _ _ j (by simp [heapAlloc]; omega)]
        exact getD_heapAlloc_lt h _ j hj
  · intro h dI iI hd hi
    cases iI with
    | none =>
        exact ⟨fun j hj => getD_heapAlloc_lt h _ j hj, rfl,
          by show h.length ≠ dI; omega, fun ii hii => by cases hii⟩
    | some ii =>
        refine ⟨fun j hj => ?_, rfl, by show h.length ≠ dI; omega,
          fun ii2 hii2 => by
            have := hi ii2 hii2
            show h.length ≠ ii2
            omega⟩
        show ((heapAlloc h (h.getD ii [])).1.set (heapAlloc h (h.getD ii [])).2
          _).getD j [] = _
        rw [show (heapAlloc h (h.getD ii [])).2 = h.length from rfl]
        have hne : j ≠ h.length := by omega
        simp only [List.getD_eq_getElem?_getD,
          List.getElem?_set_ne (fun hh => hne hh.symm)]
        have := getD_heapAlloc_lt h (h.getD ii []) j hj
        simpa [List.getD_eq_getElem?_getD] using this

/-- Witness for C6 on a concrete two-dataset heap. -/
theorem reducers_no_mutation_witness :
    ((0 : ℕ) < ([[[1, -9999]], [[5, 6]]] : Heap).length ∧
      (∀ ii, (some 1 : Option ℕ) = some ii →
        ii < ([[[1, -9999]], [[5, 6]]] : Heap).length)) ∧
    ((∀ j, j < ([[[1, -9999]], [[5, 6]]] : Heap).length →
      (fill_nodata_heap [[[1, -9999]], [[5, 6]]] 0 (some 1)).1.getD j [] =
        ([[[1, -9999]], [[5, 6]]] : Heap).getD j []) ∧
      (fill_nodata_heap [[[1, -9999]], [[5, 6]]] 0 (some 1)).2 =
        ([[[1, -9999]], [[5, 6]]] : Heap).length ∧
      (fill_nodata_heap [[[1, -9999]], [[5, 6]]] 0 (some 1)).2 ≠ 0 ∧
      (∀ ii, (some 1 : Option ℕ) = some ii →
        (fill_nodata_heap [[[1, -9999]], [[5, 6]]] 0 (some 1)).2 ≠ ii)) ∧
    ((∀ j, j < ([[[1, -9999]], [[5, 6]]] : Heap).length →
      (addition_heap [[[1, -9999]], [[5, 6]]] 0 (some 1)).1.getD j [] =
        ([[[1, -9999]], [[5, 6]]] : Heap).getD j []) ∧
      (addition_heap [[[1, -9999]], [[5, 6]]] 0 (some 1)).2 =
        ([[[1, -9999]], [[5, 6]]] : Heap).length) ∧
    ((∀ j, j < ([[[1, -9999]], [[5, 6]]] : Heap).length →
      (max_value_heap [[[1, -9999]], [[5, 6]]] 0 (some 1) 0).1.getD j [] =
        ([[[1, -9999]], [[5, 6]]] : Heap).getD j []) ∧
      (∀ j, j < ([[[1, -9999]], [[5, 6]]] : Heap).length →
      (min_value_heap [[[1, -9999]], [[5, 6]]] 0 (some 1) 0).1.getD j [] =
        ([[[1, -9999]], [[5, 6]]] : Heap).getD j [])) := by
  have hd : (0 : ℕ) < ([[[1, -9999]], [[5, 6]]] : Heap).length := by simp
  have hi : ∀ ii, (some 1 : Option ℕ) = some ii →
      ii < ([[[1, -9999]], [[5, 6]]] : Heap).length := by
    intro ii hii
    cases hii
    simp
  have main := reducers_no_mutation
  obtain ⟨f1, f2, f3, f4⟩ := main.1 [[[1, -9999]], [[5, 6]]] 0 (some 1) hd hi
  obtain ⟨a1, a2, _, _⟩ := main.2.2.2 [[[1, -9999]], [[5, 6]]] 0 (some 1) hd hi
  obtain ⟨m1, _, _, _⟩ :=
    main.2.1 [[[1, -9999]], [[5, 6]]] 0 (some 1) 0 hd hi
  obtain ⟨n1, _, _, _⟩ :=
    main.2.2.1 [[[1, -9999]], [[5, 6]]] 0 (some 1) 0 hd hi
  exact ⟨⟨hd, hi⟩, ⟨f1, f2, f3, f4⟩, ⟨a1, a2⟩, m1, n1⟩

end DataCubeUtilities
